import Mathlib

/-!
Verification of the armor codec and trust-resolution engine of the
kurv / ichi-sign repository.

The repository ships two sibling front-ends built on the same design:
`ichi-sign.c` (banner `ICHI`, a joined envelope whose 88 encoded
signature characters are split into two 44-character halves separated
by a newline) and `kurv.c` (banner `KURV`, a joined envelope whose 88
encoded signature characters are written contiguously).  Buffers are
modelled as `List Nat` of byte values; fallible C functions returning
`-1` / dying become `Option`-valued Lean functions, and the opaque
cryptographic verification capability (`crypto_check`) becomes an
explicit function parameter.
-/

set_option maxRecDepth 16000

/-- Byte values (ASCII codes) of a string literal. -/
def strBytes (s : String) : List Nat := s.toList.map Char.toNat

/-- Modelled from the spec: the external text-encoding capability
(`base64/base64.c` is not among the sources; only its header is).
Standard base64 alphabet: maps a sextet to its ASCII byte. -/
def b64Char (n : Nat) : Nat :=
  if n < 26 then 65 + n
  else if n < 52 then 97 + (n - 26)
  else if n < 62 then 48 + (n - 52)
  else if n = 62 then 43
  else 47

/-- Modelled from the spec: reverse lookup in the base64 alphabet;
`none` for a byte outside the alphabet (padding `=` included). -/
def b64Index (c : Nat) : Option Nat :=
  if 65 ≤ c ∧ c ≤ 90 then some (c - 65)
  else if 97 ≤ c ∧ c ≤ 122 then some (26 + (c - 97))
  else if 48 ≤ c ∧ c ≤ 57 then some (52 + (c - 48))
  else if c = 43 then some 62
  else if c = 47 then some 63
  else none

/-- Modelled from the spec: `encode(bytes) -> text`.  Standard base64
with `=` (byte 61) padding, processing input three bytes at a time. -/
def b64_encode : List Nat → List Nat
  | [] => []
  | [a] => [b64Char (a / 4), b64Char (a % 4 * 16), 61, 61]
  | [a, b] => [b64Char (a / 4), b64Char (a % 4 * 16 + b / 16), b64Char (b % 16 * 4), 61]
  | a :: b :: c :: rest =>
      b64Char (a / 4) :: b64Char (a % 4 * 16 + b / 16) ::
      b64Char (b % 16 * 4 + c / 64) :: b64Char (c % 64) :: b64_encode rest

/-- Modelled from the spec: `decode(text) -> bytes`, four characters at
a time, honouring trailing `=` padding.  Only ever called on input that
passed `b64_validate`. -/
def b64_decode : List Nat → List Nat
  | c1 :: c2 :: c3 :: c4 :: rest =>
      let s1 := (b64Index c1).getD 0
      let s2 := (b64Index c2).getD 0
      let s3 := (b64Index c3).getD 0
      let s4 := (b64Index c4).getD 0
      if c3 = 61 then [s1 * 4 + s2 / 16]
      else if c4 = 61 then [s1 * 4 + s2 / 16, s2 % 16 * 16 + s3 / 4]
      else (s1 * 4 + s2 / 16) :: (s2 % 16 * 16 + s3 / 4) :: (s3 % 4 * 64 + s4) :: b64_decode rest
  | _ => []

/-- Modelled from the spec: `validate(text) -> bool`.  Length must be a
multiple of four, every character in the alphabet, `=` padding allowed
only in the last one or two positions. -/
def b64_validate : List Nat → Bool
  | [] => true
  | [c1, c2, c3, c4] =>
      (b64Index c1).isSome && (b64Index c2).isSome &&
        (((b64Index c3).isSome && ((b64Index c4).isSome || c4 == 61)) ||
          (c3 == 61 && c4 == 61))
  | c1 :: c2 :: c3 :: c4 :: rest =>
      (b64Index c1).isSome && (b64Index c2).isSome &&
        (b64Index c3).isSome && (b64Index c4).isSome && b64_validate rest
  | _ => false

/-- Modelled from the spec: `decoded_length(text) -> size`, four
characters at a time, counting trailing `=` padding.  Agrees with the
usual length-based formula on every validated input (the only inputs
the sources consult it on). -/
def b64_decoded_size : List Nat → Nat
  | c1 :: c2 :: c3 :: c4 :: rest =>
      let _ := c1
      let _ := c2
      (if c3 = 61 then 1 else if c4 = 61 then 2 else 3) + b64_decoded_size rest
  | _ => 0

/-- Model of one keyring directory entry: its file name and, when the
entry can be opened and read, its byte contents (`none` models an entry
that cannot be opened). -/
structure DirEntry where
  name : List Nat
  file : Option (List Nat)

namespace Ichi

/-- Byte contents of the SIG_ARMOR_TOP literal of ichi-sign.c. -/
def SIG_ARMOR_TOP : List Nat := strBytes ("\n----BEGIN ICHI SIGNATURE----\n")

/-- Byte contents of the SIG_ARMOR_END literal of ichi-sign.c. -/
def SIG_ARMOR_END : List Nat := strBytes ("\n---- END ICHI SIGNATURE ----\n")

/-- Expected total envelope size TOTAL_SZ of sig_from_buf:
start marker + (88 + 1) + end marker. -/
def TOTAL_SZ : Nat := SIG_ARMOR_TOP.length + (88 + 1) + SIG_ARMOR_END.length

/-- Output of ichi-sign sign with ctx.detached set: exactly the 88
encoded signature bytes. -/
def sign_detached_output (sig : List Nat) : List Nat := b64_encode sig

/-- Bytes the joined mode of ichi-sign sign appends after the message:
SIG_ARMOR_TOP, the first 44 encoded characters, one newline byte, the
remaining 44 encoded characters, SIG_ARMOR_END. -/
def sign_envelope (sig : List Nat) : List Nat :=
  SIG_ARMOR_TOP ++ (b64_encode sig).take 44 ++ [10] ++ (b64_encode sig).drop 44 ++ SIG_ARMOR_END

/-- Full output of ichi-sign sign in joined mode: the message followed
by the armor envelope. -/
def sign_joined_output (msg sig : List Nat) : List Nat := msg ++ sign_envelope sig

/-- Shallow embedding of sig_from_buf of ichi-sign.c.  Returns the raw
signature and the buffer size with the envelope removed, or `none` for
the C function returning -1 (a malformed envelope).  The checks run in
the short-circuit order of the source: buffer length against TOTAL_SZ,
start marker, end marker, the newline separator byte at SIG_PTR[44],
then base64 validity and decoded size of the reassembled halves. -/
def sig_from_buf (buf : List Nat) : Option (List Nat × Nat) :=
  if buf.length < TOTAL_SZ then none
  else
    let top := buf.drop (buf.length - TOTAL_SZ)
    if top.take SIG_ARMOR_TOP.length ≠ SIG_ARMOR_TOP then none
    else if (top.drop (SIG_ARMOR_TOP.length + (88 + 1))).take SIG_ARMOR_END.length ≠ SIG_ARMOR_END then none
    else
      let sigPart := top.drop SIG_ARMOR_TOP.length
      if sigPart.get? 44 ≠ some 10 then none
      else
        let b64sig := sigPart.take 44 ++ (sigPart.drop 45).take 44
        if b64_validate b64sig && (b64_decoded_size b64sig == 64) then
          some (b64_decode b64sig, buf.length - TOTAL_SZ)
        else none

/-- Shallow embedding of sig_from_file of ichi-sign.c, reading a
detached signature from a stream.  The `XREAD` helper comes from
utils.h, which is not among the sources; Modelled from the spec: read
exactly 88 bytes, a short read is an IoError.  A stream of at least 88
bytes yields its first 88 bytes, which are then validated and decoded. -/
def sig_from_file (stream : List Nat) : Option (List Nat) :=
  if stream.length < 88 then none
  else
    let b64sig := stream.take 88
    if b64_validate b64sig && (b64_decoded_size b64sig == 64) then some (b64_decode b64sig)
    else none

/-- Shallow embedding of trim of ichi-sign.c: find the joined envelope
with sig_from_buf and write only the message (the decoded signature is
discarded; no cryptographic capability is consulted anywhere). -/
def trim (input : List Nat) : Option (List Nat) :=
  match sig_from_buf input with
  | none => none
  | some (_, n) => some (input.take n)

/-- Shallow embedding of read_key_from_file of ichi-sign.c.  The input
is `none` when fopen fails.  The second component records whether the
intermediate b64_key buffer has been wiped when the function returns:
every path of the source falls through to the error label, which calls
WIPE_BUF(b64_key), so it is `true` on success and failure alike. -/
def read_key_from_file (file : Option (List Nat)) : Option (List Nat) × Bool :=
  match file with
  | none => (none, true)
  | some stream =>
    if stream.length < 44 then (none, true)
    else
      let b64key := stream.take 44
      if b64_validate b64key && (b64_decoded_size b64key == 32) then
        (some (b64_decode b64key), true)
      else (none, true)

/-- The candidate filter of the readdir loop of verify_keyring of
ichi-sign.c: the entry name has at least nine bytes and its last nine
bytes are ".sign.pub". -/
def keyring_candidate (name : List Nat) : Bool :=
  decide (9 ≤ name.length) && (name.drop (name.length - 9) == strBytes (".sign.pub"))

/-- Loading of one keyring candidate inside verify_keyring of
ichi-sign.c: openat, a read of 44 bytes, base64 validation, decoded
size 32, then decode; `none` on any failure, upon which the loop skips
the entry and continues. -/
def load_candidate (file : Option (List Nat)) : Option (List Nat) :=
  match file with
  | none => none
  | some s =>
    if s.length < 44 then none
    else
      let b64pk := s.take 44
      if b64_validate b64pk && (b64_decoded_size b64pk == 32) then some (b64_decode b64pk)
      else none

/-- The readdir loop of verify_keyring of ichi-sign.c.  `check` is the
opaque crypto_check capability applied to the decoded candidate public
key (signature and message are fixed).  Returns the matching entry name
together with the bytes written to ctx->output: on the first candidate
that verifies, the message is streamed when ctx->stream_output is set
and the loop breaks; every other path writes nothing. -/
def verify_keyring_loop (stream_output : Bool) (check : List Nat → Bool) (msg : List Nat) :
    List DirEntry → Option (List Nat) × List Nat
  | [] => (none, [])
  | e :: rest =>
    if keyring_candidate e.name then
      match load_candidate e.file with
      | none => verify_keyring_loop stream_output check msg rest
      | some pk =>
        if check pk then (some e.name, if stream_output then msg else [])
        else verify_keyring_loop stream_output check msg rest
    else verify_keyring_loop stream_output check msg rest

/-- Outcome of the keyring branch of ichi-sign verification. -/
inductive KeyringOutcome where
  | configError : KeyringOutcome
  | undefinedBehavior : KeyringOutcome
  | found : List Nat → KeyringOutcome
  | notFound : KeyringOutcome
deriving DecidableEq

/-- Shallow embedding of verify_keyring of ichi-sign.c.  `env` is the
value of $ICHI_SIGN_KEYRING and `dir` the result of opendir on it
(`none` when the directory cannot be opened).  When the variable is
unset the source reports an error (a configuration error).  When
opendir fails it returns NULL, and the source passes that NULL straight
to dirfd; POSIX leaves dirfd on an invalid stream undefined and glibc
dereferences the pointer, so this path is modelled as
`undefinedBehavior` rather than an error return. -/
def verify_keyring (env : Option (List Nat)) (dir : Option (List DirEntry))
    (stream_output : Bool) (check : List Nat → Bool) (msg : List Nat) :
    KeyringOutcome × List Nat :=
  match env with
  | none => (.configError, [])
  | some _ =>
    match dir with
    | none => (.undefinedBehavior, [])
    | some entries =>
      match verify_keyring_loop stream_output check msg entries with
      | (none, out) => (.notFound, out)
      | (some id, out) => (.found id, out)

/-- The single-key branch of verify of ichi-sign.c with joined
signature detection: extract the envelope, run crypto_check, and only
after it succeeds stream the message when ctx.stream_output is set.
Returns the success flag and the bytes written to ctx.output. -/
def verify_single (stream_output : Bool) (check : List Nat → List Nat → Bool)
    (input : List Nat) : Bool × List Nat :=
  match sig_from_buf input with
  | none => (false, [])
  | some (sig, n) =>
    if check sig (input.take n) then (true, if stream_output then input.take n else [])
    else (false, [])

end Ichi

namespace Kurv

/-- Byte contents of the SIG_START literal of kurv.c. -/
def SIG_START : List Nat := strBytes ("\n----BEGIN KURV SIGNATURE----\n")

/-- Byte contents of the SIG_END literal of kurv.c. -/
def SIG_END : List Nat := strBytes ("\n----END KURV SIGNATURE----\n")

/-- Expected total envelope size of find_signature of kurv.c:
start banner + 88 + end banner (there is no separator byte). -/
def TOTAL : Nat := SIG_START.length + 88 + SIG_END.length

/-- Shallow embedding of read_exactly of kurv.c: an fread of exactly
`n` bytes, failing on a short read. -/
def read_exactly (n : Nat) (stream : List Nat) : Option (List Nat) :=
  if stream.length < n then none else some (stream.take n)

/-- Shallow embedding of decode_exactly of kurv.c: base64-validate the
text, require the decoded size to be exactly `bufsize`, then decode. -/
def decode_exactly (bufsize : Nat) (b64 : List Nat) : Option (List Nat) :=
  if b64_validate b64 && (b64_decoded_size b64 == bufsize) then some (b64_decode b64)
  else none

/-- Bytes the sign function of kurv.c appends after the message:
SIG_START, all 88 encoded signature characters contiguously (a single
fwrite of the whole b64_sig array), SIG_END. -/
def sign_envelope (sig : List Nat) : List Nat := SIG_START ++ b64_encode sig ++ SIG_END

/-- Full output of the sign function of kurv.c: the message followed by
the armor envelope. -/
def sign_output (msg sig : List Nat) : List Nat := msg ++ sign_envelope sig

/-- Shallow embedding of find_signature of kurv.c.  Returns the raw
signature and the buffer size with the envelope removed, or `none` for
the C function returning -1.  The checks run in the short-circuit order
of the source: buffer length against the total envelope size, the end
banner at the very end, the start banner at the start of the envelope,
then decode_exactly on the 88 characters between the banners. -/
def find_signature (buf : List Nat) : Option (List Nat × Nat) :=
  if buf.length < TOTAL then none
  else if buf.drop (buf.length - SIG_END.length) ≠ SIG_END then none
  else if (buf.drop (buf.length - TOTAL)).take SIG_START.length ≠ SIG_START then none
  else
    match decode_exactly 64 ((buf.drop (buf.length - 88 - SIG_END.length)).take 88) with
    | none => none
    | some s => some (s, buf.length - TOTAL)

/-- Shallow embedding of find_key of kurv.c. -/
def find_key (buf : List Nat) : Option (List Nat) :=
  if buf.length < 44 then none else decode_exactly 32 (buf.take 44)

/-- Shallow embedding of find_key_in_file of kurv.c.  The second
component records whether the b64_key buffer holding the encoded key
has been wiped when the function returns: the source calls crypto_wipe
only inside the failure branch, so the success path returns with the
buffer still holding the encoded key. -/
def find_key_in_file (stream : List Nat) : Option (List Nat) × Bool :=
  match read_exactly 44 stream with
  | none => (none, true)
  | some b64key =>
    match find_key b64key with
    | none => (none, true)
    | some key => (some key, false)

/-- Shallow embedding of endswith of kurv.c (its 0 result, a match, is
modelled as `true`). -/
def endswith (src suffix : List Nat) : Bool :=
  decide (suffix.length ≤ src.length) && (src.drop (src.length - suffix.length) == suffix)

/-- Shallow embedding of detach of kurv.c: find the envelope with
find_signature and write only the message (the decoded signature is
unused; no cryptographic capability is consulted anywhere). -/
def detach (input : List Nat) : Option (List Nat) :=
  match find_signature input with
  | none => none
  | some (_, n) => some (input.take n)

/-- The candidate filter of the readdir loop of check_keyring of
kurv.c: skip "." and "..", then require the name to end in ".pub". -/
def keyring_candidate (name : List Nat) : Bool :=
  !(name == strBytes (".")) && !(name == strBytes ("..")) && endswith name (strBytes (".pub"))

/-- The readdir loop of check_keyring of kurv.c.  `check` is the opaque
crypto_check capability applied to the decoded candidate public key.
Returns the matching entry name together with the bytes written to
stdout: on the first candidate that verifies, the entry name plus a
newline is printed when -i was given and the message when -o was given,
and the process exits; candidates that cannot be opened, fail to load,
or fail crypto_check are skipped and write nothing. -/
def check_keyring_loop (should_show_id should_show_og : Bool) (check : List Nat → Bool)
    (msg : List Nat) : List DirEntry → Option (List Nat) × List Nat
  | [] => (none, [])
  | e :: rest =>
    if keyring_candidate e.name then
      match e.file with
      | none => check_keyring_loop should_show_id should_show_og check msg rest
      | some s =>
        match (find_key_in_file s).1 with
        | none => check_keyring_loop should_show_id should_show_og check msg rest
        | some pk =>
          if check pk then
            (some e.name,
              (if should_show_id then e.name ++ [10] else []) ++
                (if should_show_og then msg else []))
          else check_keyring_loop should_show_id should_show_og check msg rest
    else check_keyring_loop should_show_id should_show_og check msg rest

/-- Outcome of check_keyring of kurv.c. -/
inductive CheckOutcome where
  | configError : CheckOutcome
  | malformedEnvelope : CheckOutcome
  | openDirError : CheckOutcome
  | found : List Nat → CheckOutcome
  | notFound : CheckOutcome
deriving DecidableEq

/-- Shallow embedding of check_keyring of kurv.c.  `env` is the value
of $KURV_KEYRING and `dir` the result of opendir on it.  The source
checks the variable first (unset or empty dies), then reads the input
and extracts the signature, and only then opens the directory (opendir
failure is a fatal error of its own). -/
def check_keyring (env : Option (List Nat)) (dir : Option (List DirEntry))
    (should_show_id should_show_og : Bool)
    (check : List Nat → List Nat → List Nat → Bool)
    (input : List Nat) : CheckOutcome × List Nat :=
  match env with
  | none => (.configError, [])
  | some d =>
    if d.length = 0 then (.configError, [])
    else
      match find_signature input with
      | none => (.malformedEnvelope, [])
      | some (sig, n) =>
        match dir with
        | none => (.openDirError, [])
        | some entries =>
          match check_keyring_loop should_show_id should_show_og
              (fun pk => check sig pk (input.take n)) (input.take n) entries with
          | (none, out) => (.notFound, out)
          | (some id, out) => (.found id, out)

/-- Shallow embedding of the single-key check of kurv.c: load the
public key, extract the envelope, run crypto_check, and only after it
succeeds print the key file name (-i) and stream the message (-o).
Returns the success flag and the bytes written to stdout. -/
def check (should_show_id should_show_og : Bool)
    (check_fn : List Nat → List Nat → List Nat → Bool)
    (pk_fn : List Nat) (pkfile : List Nat) (input : List Nat) : Bool × List Nat :=
  match (find_key_in_file pkfile).1 with
  | none => (false, [])
  | some pk =>
    match find_signature input with
    | none => (false, [])
    | some (sig, n) =>
      if check_fn sig pk (input.take n) then
        (true,
          (if should_show_id then pk_fn ++ [10] else []) ++
            (if should_show_og then input.take n else []))
      else (false, [])

end Kurv

/-- The first-match trust search the specification describes, written
independently of the loop structure of either source: restrict the
directory listing to entries whose names end in the candidate-key
suffix, and return the name of the first one that both loads as a
public key and passes the external cryptographic verification; `none`
is the NotFound outcome.  `load` failures contribute nothing, so such
entries are skipped without aborting the scan. -/
def firstMatchSpec (cand : List Nat → Bool) (load : Option (List Nat) → Option (List Nat))
    (check : List Nat → Bool) (entries : List DirEntry) : Option (List Nat) :=
  (entries.filter (fun e => cand e.name)).findSome?
    (fun e =>
      match load e.file with
      | some pk => if check pk then some e.name else none
      | none => none)

theorem b64Index_b64Char : ∀ s < 64, b64Index (b64Char s) = some s := by decide

theorem b64Char_ne_61 (s : Nat) : b64Char s ≠ 61 := by
  simp only [b64Char]
  repeat' split
  all_goals omega

theorem b64Char_isSome (s : Nat) (hs : s < 64) : (b64Index (b64Char s)).isSome = true := by
  rw [b64Index_b64Char s hs]
  rfl

theorem b64_encode_length : ∀ l : List Nat, (b64_encode l).length = (l.length + 2) / 3 * 4
  | [] => rfl
  | [_] => by
      simp only [b64_encode, List.length_cons, List.length_nil]
  | [_, _] => by
      simp only [b64_encode, List.length_cons, List.length_nil]
  | _ :: _ :: _ :: rest => by
      simp only [b64_encode, List.length_cons, b64_encode_length rest]
      omega

theorem b64_decode_encode : ∀ l : List Nat, (∀ x ∈ l, x < 256) → b64_decode (b64_encode l) = l
  | [], _ => rfl
  | [a], h => by
      have ha : a < 256 := h a (by simp)
      have h1 : b64Index (b64Char (a / 4)) = some (a / 4) := b64Index_b64Char _ (by omega)
      have h2 : b64Index (b64Char (a % 4 * 16)) = some (a % 4 * 16) := b64Index_b64Char _ (by omega)
      simp only [b64_encode, b64_decode, h1, h2, Option.getD_some, eq_self_iff_true, if_true]
      simp only [List.cons.injEq, and_true]
      omega
  | [a, b], h => by
      have ha : a < 256 := h a (by simp)
      have hb : b < 256 := h b (by simp)
      have h1 : b64Index (b64Char (a / 4)) = some (a / 4) := b64Index_b64Char _ (by omega)
      have h2 : b64Index (b64Char (a % 4 * 16 + b / 16)) = some (a % 4 * 16 + b / 16) :=
        b64Index_b64Char _ (by omega)
      have h3 : b64Index (b64Char (b % 16 * 4)) = some (b % 16 * 4) := b64Index_b64Char _ (by omega)
      simp only [b64_encode, b64_decode, h1, h2, h3, Option.getD_some,
        if_neg (b64Char_ne_61 (b % 16 * 4)), eq_self_iff_true, if_true]
      simp only [List.cons.injEq, and_true]
      omega
  | a :: b :: c :: (rest : List Nat), h => by
      have ha : a < 256 := h a (by simp)
      have hb : b < 256 := h b (by simp)
      have hc : c < 256 := h c (by simp)
      have h1 : b64Index (b64Char (a / 4)) = some (a / 4) := b64Index_b64Char _ (by omega)
      have h2 : b64Index (b64Char (a % 4 * 16 + b / 16)) = some (a % 4 * 16 + b / 16) :=
        b64Index_b64Char _ (by omega)
      have h3 : b64Index (b64Char (b % 16 * 4 + c / 64)) = some (b % 16 * 4 + c / 64) :=
        b64Index_b64Char _ (by omega)
      have h4 : b64Index (b64Char (c % 64)) = some (c % 64) := b64Index_b64Char _ (by omega)
      have ih := b64_decode_encode rest (fun x hx => h x (by simp [hx]))
      simp only [b64_encode, b64_decode, h1, h2, h3, h4, Option.getD_some,
        if_neg (b64Char_ne_61 (b % 16 * 4 + c / 64)), if_neg (b64Char_ne_61 (c % 64)), ih]
      simp only [List.cons.injEq, and_true]
      omega

theorem b64_decoded_size_encode : ∀ l : List Nat, b64_decoded_size (b64_encode l) = l.length
  | [] => rfl
  | [a] => by
      simp only [b64_encode, b64_decoded_size, eq_self_iff_true, if_true, List.length_singleton]
  | [a, b] => by
      simp only [b64_encode, b64_decoded_size, if_neg (b64Char_ne_61 (b % 16 * 4)),
        eq_self_iff_true, if_true, List.length_cons, List.length_nil]
  | a :: b :: c :: (rest : List Nat) => by
      simp only [b64_encode, b64_decoded_size,
        if_neg (b64Char_ne_61 (b % 16 * 4 + c / 64)), if_neg (b64Char_ne_61 (c % 64)),
        b64_decoded_size_encode rest, List.length_cons]
      omega

theorem b64_encode_ne_nil (l : List Nat) (h : l ≠ []) : b64_encode l ≠ [] := by
  intro he
  have := b64_encode_length l
  rw [he] at this
  simp only [List.length_nil] at this
  rcases l with _ | ⟨x, l⟩
  · exact h rfl
  · simp only [List.length_cons] at this
    omega

theorem b64_validate_encode : ∀ l : List Nat, (∀ x ∈ l, x < 256) → b64_validate (b64_encode l) = true
  | [], _ => rfl
  | [a], h => by
      have ha : a < 256 := h a (by simp)
      simp only [b64_encode, b64_validate, b64Char_isSome _ (by omega : a / 4 < 64),
        b64Char_isSome _ (by omega : a % 4 * 16 < 64)]
      simp
  | [a, b], h => by
      have ha : a < 256 := h a (by simp)
      have hb : b < 256 := h b (by simp)
      simp only [b64_encode, b64_validate, b64Char_isSome _ (by omega : a / 4 < 64),
        b64Char_isSome _ (by omega : a % 4 * 16 + b / 16 < 64),
        b64Char_isSome _ (by omega : b % 16 * 4 < 64)]
      simp
  | a :: b :: c :: (rest : List Nat), h => by
      have ha : a < 256 := h a (by simp)
      have hb : b < 256 := h b (by simp)
      have hc : c < 256 := h c (by simp)
      have e1 : (b64Index (b64Char (a / 4))).isSome = true := b64Char_isSome _ (by omega)
      have e2 : (b64Index (b64Char (a % 4 * 16 + b / 16))).isSome = true := b64Char_isSome _ (by omega)
      have e3 : (b64Index (b64Char (b % 16 * 4 + c / 64))).isSome = true := b64Char_isSome _ (by omega)
      have e4 : (b64Index (b64Char (c % 64))).isSome = true := b64Char_isSome _ (by omega)
      rcases rest with _ | ⟨d, rest⟩
      · simp only [b64_encode, b64_validate, e1, e2, e3, e4]
        simp
      · have hne : b64_encode (d :: rest) ≠ [] := b64_encode_ne_nil _ (by simp)
        have ih := b64_validate_encode (d :: rest) (fun x hx => h x (by simp at hx; simp [hx]))
        rcases he : b64_encode (d :: rest) with _ | ⟨y, ys⟩
        · exact absurd he hne
        · rcases ys with _ | ⟨y2, ys⟩
          · have := b64_encode_length (d :: rest)
            rw [he] at this
            simp only [List.length_cons, List.length_nil] at this
            omega
          · rcases ys with _ | ⟨y3, ys⟩
            · have := b64_encode_length (d :: rest)
              rw [he] at this
              simp only [List.length_cons, List.length_nil] at this
              omega
            · rcases ys with _ | ⟨y4, ys⟩
              · have := b64_encode_length (d :: rest)
                rw [he] at this
                simp only [List.length_cons, List.length_nil] at this
                omega
              · rw [he] at ih
                simp only [b64_encode, he, b64_validate, e1, e2, e3, e4, ih,
                  Bool.and_true, Bool.true_and]


theorem append_take_len (a b : List Nat) : (a ++ b).take a.length = a := by simp

theorem append_drop_len (a b : List Nat) : (a ++ b).drop a.length = b := by simp

theorem append_drop_add (a b : List Nat) (k : Nat) : (a ++ b).drop (a.length + k) = b.drop k := by
  simp [List.drop_append]

theorem append_get?_add (a b : List Nat) (k : Nat) : (a ++ b).get? (a.length + k) = b.get? k := by
  simp only [List.get?_eq_getElem?]
  rw [List.getElem?_append_right (by omega)]
  congr 1
  omega

theorem take_at_len (a b : List Nat) (n : Nat) (h : a.length = n) : (a ++ b).take n = a := by
  subst h
  exact append_take_len a b

theorem drop_at_len (a b : List Nat) (n : Nat) (h : a.length = n) : (a ++ b).drop n = b := by
  subst h
  exact append_drop_len a b

theorem drop_at_add (a b : List Nat) (n k : Nat) (h : a.length = n) :
    (a ++ b).drop (n + k) = b.drop k := by
  subst h
  exact append_drop_add a b k

theorem get?_at_len (a b : List Nat) (n : Nat) (h : a.length = n) :
    (a ++ b).get? n = b.get? 0 := by
  subst h
  simpa using append_get?_add a b 0

theorem ichi_envelope_roundtrip (m s : List Nat) (hs : ∀ x ∈ s, x < 256) (hlen : s.length = 64) :
    Ichi.sig_from_buf (m ++ Ichi.sign_envelope s) = some (s, m.length) := by
  have henc : (b64_encode s).length = 88 := by rw [b64_encode_length, hlen]
  have htop : Ichi.SIG_ARMOR_TOP.length = 30 := by decide
  have hend : Ichi.SIG_ARMOR_END.length = 30 := by decide
  have ht44 : ((b64_encode s).take 44).length = 44 := by simp [henc]
  have hd44 : ((b64_encode s).drop 44).length = 44 := by simp [henc]
  have hw : Ichi.sign_envelope s =
      Ichi.SIG_ARMOR_TOP ++ ((b64_encode s).take 44 ++ ([10] ++ ((b64_encode s).drop 44 ++ Ichi.SIG_ARMOR_END))) := by
    simp [Ichi.sign_envelope, List.append_assoc]
  have hwlen : (Ichi.sign_envelope s).length = 149 := by
    rw [hw]
    simp only [List.length_append, htop, hend, ht44, hd44, List.length_cons, List.length_nil]
  have hTS : Ichi.TOTAL_SZ = 149 := by decide
  have hblen : (m ++ Ichi.sign_envelope s).length = m.length + 149 := by simp [hwlen]
  have hsub : m.length + 149 - 149 = m.length := by omega
  have hlt : ¬ (m.length + 149 < 149) := by omega
  have e1 : (Ichi.sign_envelope s).take Ichi.SIG_ARMOR_TOP.length = Ichi.SIG_ARMOR_TOP := by
    rw [hw]
    exact take_at_len _ _ _ rfl
  have e2 : ((Ichi.sign_envelope s).drop (Ichi.SIG_ARMOR_TOP.length + (88 + 1))).take Ichi.SIG_ARMOR_END.length
      = Ichi.SIG_ARMOR_END := by
    rw [hw, drop_at_add _ _ _ _ rfl]
    rw [show (88 + 1 : Nat) = 44 + 45 from rfl]
    rw [drop_at_add _ _ _ _ ht44]
    rw [show (45 : Nat) = 1 + 44 from rfl]
    rw [drop_at_add _ _ _ _ (by simp : ([10] : List Nat).length = 1)]
    rw [drop_at_len _ _ _ hd44, List.take_length]
  have e3 : (Ichi.sign_envelope s).drop Ichi.SIG_ARMOR_TOP.length =
      (b64_encode s).take 44 ++ ([10] ++ ((b64_encode s).drop 44 ++ Ichi.SIG_ARMOR_END)) := by
    rw [hw]
    exact drop_at_len _ _ _ rfl
  have e4 : ((Ichi.sign_envelope s).drop Ichi.SIG_ARMOR_TOP.length).get? 44 = some 10 := by
    rw [e3, get?_at_len _ _ _ ht44]
    rfl
  have e5 : ((Ichi.sign_envelope s).drop Ichi.SIG_ARMOR_TOP.length).take 44 = (b64_encode s).take 44 := by
    rw [e3]
    exact take_at_len _ _ _ ht44
  have e6 : (((Ichi.sign_envelope s).drop Ichi.SIG_ARMOR_TOP.length).drop 45).take 44 = (b64_encode s).drop 44 := by
    rw [e3]
    rw [show (45 : Nat) = 44 + 1 from rfl]
    rw [drop_at_add _ _ _ _ ht44]
    rw [show (([10] : List Nat) ++ ((b64_encode s).drop 44 ++ Ichi.SIG_ARMOR_END)).drop 1
        = (b64_encode s).drop 44 ++ Ichi.SIG_ARMOR_END from rfl]
    exact take_at_len _ _ _ hd44
  have e7 : (b64_encode s).take 44 ++ (b64_encode s).drop 44 = b64_encode s := List.take_append_drop _ _
  have e8 : b64_validate (b64_encode s) = true := b64_validate_encode s hs
  have e9 : b64_decoded_size (b64_encode s) = 64 := by rw [b64_decoded_size_encode, hlen]
  have e10 : b64_decode (b64_encode s) = s := b64_decode_encode s hs
  simp only [Ichi.sig_from_buf, hblen, hTS, hsub, append_drop_len, if_neg hlt,
    e1, e2, e4, e5, e6, e7, e8, e9, e10, ne_eq, not_true_eq_false, if_false,
    eq_self_iff_true, if_true]
  simp

set_option maxRecDepth 4000 in
theorem kurv_envelope_roundtrip (m s : List Nat) (hs : ∀ x ∈ s, x < 256) (hlen : s.length = 64) :
    Kurv.find_signature (m ++ Kurv.sign_envelope s) = some (s, m.length) := by
  have henc : (b64_encode s).length = 88 := by rw [b64_encode_length, hlen]
  have hst : Kurv.SIG_START.length = 30 := by decide
  have hen : Kurv.SIG_END.length = 28 := by decide
  have hw : Kurv.sign_envelope s = Kurv.SIG_START ++ (b64_encode s ++ Kurv.SIG_END) := by
    simp [Kurv.sign_envelope, List.append_assoc]
  have hwlen : (Kurv.sign_envelope s).length = 146 := by
    rw [hw]
    simp only [List.length_append, hst, hen, henc]
  have hT : Kurv.TOTAL = 146 := by decide
  have hblen : (m ++ Kurv.sign_envelope s).length = m.length + 146 := by simp [hwlen]
  have hlt : ¬ (m.length + 146 < 146) := by omega
  have hsub1 : m.length + 146 - 28 = m.length + 118 := by omega
  have hsub2 : m.length + 146 - 146 = m.length := by omega
  have hsub3 : m.length + 146 - 88 - 28 = m.length + 30 := by omega
  have e1 : (Kurv.sign_envelope s).drop 118 = Kurv.SIG_END := by
    rw [hw]
    rw [show (118 : Nat) = 30 + 88 from rfl]
    rw [drop_at_add _ _ _ _ hst]
    exact drop_at_len _ _ _ henc
  have e2 : (Kurv.sign_envelope s).take Kurv.SIG_START.length = Kurv.SIG_START := by
    rw [hw]
    exact take_at_len _ _ _ rfl
  have e3 : ((Kurv.sign_envelope s).drop 30).take 88 = b64_encode s := by
    rw [hw, drop_at_len _ _ _ hst]
    exact take_at_len _ _ _ henc
  have e8 : b64_validate (b64_encode s) = true := b64_validate_encode s hs
  have e9 : b64_decoded_size (b64_encode s) = 64 := by rw [b64_decoded_size_encode, hlen]
  have e10 : b64_decode (b64_encode s) = s := b64_decode_encode s hs
  simp only [Kurv.find_signature, Kurv.decode_exactly, hblen, hT, hen, hsub1, hsub2, hsub3,
    append_drop_add, append_drop_len, if_neg hlt, e1, e2, e3, e8, e9, e10,
    ne_eq, not_true_eq_false, if_false, eq_self_iff_true, if_true]
  simp
/-- C2: for every 64-byte signature and every message, unwrapping the
joined envelope that the sign operation appends to the message returns
exactly the signature together with the original message length, in
both front-ends. -/
theorem C2_joined_roundtrip (m s : List Nat) (hs : ∀ x ∈ s, x < 256) (hlen : s.length = 64) :
    Ichi.sig_from_buf (Ichi.sign_joined_output m s) = some (s, m.length) ∧
    Kurv.find_signature (Kurv.sign_output m s) = some (s, m.length) :=
  ⟨ichi_envelope_roundtrip m s hs hlen, kurv_envelope_roundtrip m s hs hlen⟩

/-- C2 witness: the round trip evaluated on the concrete message
[104, 105] and the all-zero 64-byte signature. -/
theorem C2_joined_roundtrip_witness :
    Ichi.sig_from_buf (Ichi.sign_joined_output [104, 105] (List.replicate 64 0))
        = some (List.replicate 64 0, 2) ∧
    Kurv.find_signature (Kurv.sign_output [104, 105] (List.replicate 64 0))
        = some (List.replicate 64 0, 2) := by
  have h := C2_joined_roundtrip [104, 105] (List.replicate 64 0) (by decide) (by decide)
  simpa using h

theorem ichi_envelope_length (s : List Nat) (hlen : s.length = 64) :
    (Ichi.sign_envelope s).length = Ichi.TOTAL_SZ := by
  have henc : (b64_encode s).length = 88 := by rw [b64_encode_length, hlen]
  simp [Ichi.sign_envelope, Ichi.TOTAL_SZ, henc]
  omega

theorem kurv_envelope_length (s : List Nat) (hlen : s.length = 64) :
    (Kurv.sign_envelope s).length = Kurv.TOTAL := by
  have henc : (b64_encode s).length = 88 := by rw [b64_encode_length, hlen]
  simp [Kurv.sign_envelope, Kurv.TOTAL, henc]
  omega

/-- C5: every buffer strictly shorter than the minimum envelope length
is rejected (the length test is the first check of the short-circuit
chain, before any buffer access, so nothing is read out of bounds), and
a buffer of exactly the minimum length holding a valid envelope is
accepted and yields a zero-length message, in both front-ends. -/
theorem C5_minimum_envelope (buf s : List Nat) (hs : ∀ x ∈ s, x < 256) (hlen : s.length = 64) :
    (buf.length < Ichi.TOTAL_SZ → Ichi.sig_from_buf buf = none) ∧
    (buf.length < Kurv.TOTAL → Kurv.find_signature buf = none) ∧
    (Ichi.sign_envelope s).length = Ichi.TOTAL_SZ ∧
    Ichi.sig_from_buf (Ichi.sign_envelope s) = some (s, 0) ∧
    (Kurv.sign_envelope s).length = Kurv.TOTAL ∧
    Kurv.find_signature (Kurv.sign_envelope s) = some (s, 0) := by
  refine ⟨?_, ?_, ichi_envelope_length s hlen, ?_, kurv_envelope_length s hlen, ?_⟩
  · intro h
    simp only [Ichi.sig_from_buf, if_pos h]
  · intro h
    simp only [Kurv.find_signature, if_pos h]
  · simpa using ichi_envelope_roundtrip [] s hs hlen
  · simpa using kurv_envelope_roundtrip [] s hs hlen

/-- C5 witness: a one-byte buffer is rejected by both unwrapping
functions, and the minimum-length envelope around the all-zero
signature is accepted with message length zero. -/
theorem C5_minimum_envelope_witness :
    Ichi.sig_from_buf [0] = none ∧ Kurv.find_signature [0] = none ∧
    Ichi.sig_from_buf (Ichi.sign_envelope (List.replicate 64 0)) = some (List.replicate 64 0, 0) ∧
    Kurv.find_signature (Kurv.sign_envelope (List.replicate 64 0)) = some (List.replicate 64 0, 0) := by
  have h := C5_minimum_envelope [0] (List.replicate 64 0) (by decide) (by decide)
  exact ⟨h.1 (by decide), h.2.1 (by decide), h.2.2.2.1, h.2.2.2.2.2⟩

/-- C8: stripping a well-formed joined envelope writes exactly the
original message.  Neither trim nor detach takes the cryptographic
verification capability as an input, so the result holds for every
64-byte signature, valid for the message or not: no cryptographic check
is performed. -/
theorem C8_trim_no_crypto (m s : List Nat) (hs : ∀ x ∈ s, x < 256) (hlen : s.length = 64) :
    Ichi.trim (Ichi.sign_joined_output m s) = some m ∧
    Kurv.detach (Kurv.sign_output m s) = some m := by
  have h1 := ichi_envelope_roundtrip m s hs hlen
  have h2 := kurv_envelope_roundtrip m s hs hlen
  constructor
  · simp only [Ichi.trim, Ichi.sign_joined_output]
    rw [h1]
    exact congrArg some (append_take_len m (Ichi.sign_envelope s))
  · simp only [Kurv.detach, Kurv.sign_output]
    rw [h2]
    exact congrArg some (append_take_len m (Kurv.sign_envelope s))

/-- C8 witness: trim and detach on the concrete signed output of the
message [104, 105] with the all-zero signature (which is not a valid
signature of that message) return exactly the message. -/
theorem C8_trim_no_crypto_witness :
    Ichi.trim (Ichi.sign_joined_output [104, 105] (List.replicate 64 0)) = some [104, 105] ∧
    Kurv.detach (Kurv.sign_output [104, 105] (List.replicate 64 0)) = some [104, 105] :=
  C8_trim_no_crypto [104, 105] (List.replicate 64 0) (by decide) (by decide)

/-- C9: reading a detached signature consults only the first 88 bytes
of the signature source; whatever follows them never changes the
result, and a source whose first 88 bytes are a valid encoded signature
decodes to exactly those bytes' decoding. -/
theorem C9_detached_uses_first_88 (front rest : List Nat) (hf : front.length = 88) :
    Ichi.sig_from_file (front ++ rest) = Ichi.sig_from_file front ∧
    (b64_validate front = true → b64_decoded_size front = 64 →
      Ichi.sig_from_file (front ++ rest) = some (b64_decode front)) := by
  have htake : (front ++ rest).take 88 = front := take_at_len _ _ _ hf
  have hlen2 : (front ++ rest).length = 88 + rest.length := by simp [hf]
  have hfr : front.take 88 = front := by
    rw [← hf]
    simp
  have hno1 : ¬ (88 + rest.length < 88) := by omega
  have hno2 : ¬ (88 < 88) := by omega
  constructor
  · simp only [Ichi.sig_from_file, hlen2, hf, htake, hfr, if_neg hno1, if_neg hno2]
  · intro hv hd
    simp only [Ichi.sig_from_file, hlen2, htake, if_neg hno1, hv, hd]
    simp

/-- C9 witness: the encoding of the all-zero signature followed by
three trailing garbage bytes reads the same as without them and decodes
to the all-zero signature. -/
theorem C9_detached_uses_first_88_witness :
    Ichi.sig_from_file (b64_encode (List.replicate 64 0) ++ [1, 2, 3])
        = Ichi.sig_from_file (b64_encode (List.replicate 64 0)) ∧
    Ichi.sig_from_file (b64_encode (List.replicate 64 0) ++ [1, 2, 3])
        = some (b64_decode (b64_encode (List.replicate 64 0))) := by
  have h := C9_detached_uses_first_88 (b64_encode (List.replicate 64 0)) [1, 2, 3] (by decide)
  exact ⟨h.1, h.2 (by decide) (by decide)⟩

/-- C3 counterexample: the claim's length formula fails on the kurv
joined writer.  With the all-zero 64-byte signature and an empty
message, the bytes added to the message are the whole output, and their
count is start + 88 + end = 146, not start + 44 + 1 + 44 + end = 147:
kurv writes the 88 encoded characters contiguously with no newline
separator. -/
theorem C3_kurv_length_counterexample :
    ¬ ((Kurv.sign_output [] (List.replicate 64 0)).length
        = Kurv.SIG_START.length + 44 + 1 + 44 + Kurv.SIG_END.length) := by decide

/-- C3 amended: ichi-sign's detached output is exactly 88 characters,
and its joined mode adds exactly start + 44 + 1 + 44 + end bytes laid
out as start marker, first 44 encoded characters, one newline, the
remaining 44 characters, end marker; kurv's joined mode instead adds
exactly start + 88 + end bytes, with the 88 encoded characters
contiguous between the two markers. -/
theorem C3_wrap_layout (m s : List Nat) (hlen : s.length = 64) :
    (Ichi.sign_detached_output s).length = 88 ∧
    (Ichi.sign_joined_output m s).length
        = m.length + (Ichi.SIG_ARMOR_TOP.length + 44 + 1 + 44 + Ichi.SIG_ARMOR_END.length) ∧
    ((Ichi.sign_joined_output m s).drop m.length).take Ichi.SIG_ARMOR_TOP.length
        = Ichi.SIG_ARMOR_TOP ∧
    ((Ichi.sign_joined_output m s).drop (m.length + Ichi.SIG_ARMOR_TOP.length)).take 44
        = (b64_encode s).take 44 ∧
    (Ichi.sign_joined_output m s).get? (m.length + (Ichi.SIG_ARMOR_TOP.length + 44)) = some 10 ∧
    ((Ichi.sign_joined_output m s).drop (m.length + (Ichi.SIG_ARMOR_TOP.length + 45))).take 44
        = (b64_encode s).drop 44 ∧
    (Ichi.sign_joined_output m s).drop (m.length + (Ichi.SIG_ARMOR_TOP.length + 89))
        = Ichi.SIG_ARMOR_END ∧
    (Kurv.sign_output m s).length
        = m.length + (Kurv.SIG_START.length + 88 + Kurv.SIG_END.length) ∧
    ((Kurv.sign_output m s).drop (m.length + Kurv.SIG_START.length)).take 88 = b64_encode s := by
  have henc : (b64_encode s).length = 88 := by rw [b64_encode_length, hlen]
  have ht44 : ((b64_encode s).take 44).length = 44 := by simp [henc]
  have hd44 : ((b64_encode s).drop 44).length = 44 := by simp [henc]
  have hw : Ichi.sign_envelope s =
      Ichi.SIG_ARMOR_TOP ++ ((b64_encode s).take 44 ++ ([10] ++ ((b64_encode s).drop 44 ++ Ichi.SIG_ARMOR_END))) := by
    simp [Ichi.sign_envelope, List.append_assoc]
  have hkw : Kurv.sign_envelope s = Kurv.SIG_START ++ (b64_encode s ++ Kurv.SIG_END) := by
    simp [Kurv.sign_envelope, List.append_assoc]
  refine ⟨?_, ?_, ?_, ?_, ?_, ?_, ?_, ?_, ?_⟩
  · simp [Ichi.sign_detached_output, henc]
  · simp only [Ichi.sign_joined_output, List.length_append, ichi_envelope_length s hlen]
    have : Ichi.TOTAL_SZ = Ichi.SIG_ARMOR_TOP.length + 44 + 1 + 44 + Ichi.SIG_ARMOR_END.length := by
      decide
    omega
  · simp only [Ichi.sign_joined_output, append_drop_len, hw]
    exact take_at_len _ _ _ rfl
  · simp only [Ichi.sign_joined_output, append_drop_add, hw, drop_at_len _ _ _ rfl]
    exact take_at_len _ _ _ ht44
  · simp only [Ichi.sign_joined_output, append_get?_add, hw]
    rw [get?_at_len _ _ _ ht44]
    rfl
  · simp only [Ichi.sign_joined_output, append_drop_add, hw]
    rw [show (45 : Nat) = 44 + 1 from rfl, drop_at_add _ _ _ _ ht44]
    rw [show (([10] : List Nat) ++ ((b64_encode s).drop 44 ++ Ichi.SIG_ARMOR_END)).drop 1
        = (b64_encode s).drop 44 ++ Ichi.SIG_ARMOR_END from rfl]
    exact take_at_len _ _ _ hd44
  · simp only [Ichi.sign_joined_output, append_drop_add, hw]
    rw [show (89 : Nat) = 44 + 45 from rfl, drop_at_add _ _ _ _ ht44]
    rw [show (45 : Nat) = 1 + 44 from rfl,
      drop_at_add _ _ _ _ (by simp : ([10] : List Nat).length = 1)]
    exact drop_at_len _ _ _ hd44
  · simp only [Kurv.sign_output, List.length_append, kurv_envelope_length s hlen]
    have : Kurv.TOTAL = Kurv.SIG_START.length + 88 + Kurv.SIG_END.length := by decide
    omega
  · simp only [Kurv.sign_output, append_drop_add, hkw, drop_at_len _ _ _ rfl]
    exact take_at_len _ _ _ henc

/-- C3 witness: the layout facts evaluated on the concrete message
[104, 105] and the all-zero 64-byte signature. -/
theorem C3_wrap_layout_witness :
    (Ichi.sign_detached_output (List.replicate 64 0)).length = 88 ∧
    (Ichi.sign_joined_output [104, 105] (List.replicate 64 0)).length
        = ([104, 105] : List Nat).length
          + (Ichi.SIG_ARMOR_TOP.length + 44 + 1 + 44 + Ichi.SIG_ARMOR_END.length) ∧
    ((Ichi.sign_joined_output [104, 105] (List.replicate 64 0)).drop ([104, 105] : List Nat).length).take Ichi.SIG_ARMOR_TOP.length
        = Ichi.SIG_ARMOR_TOP ∧
    ((Ichi.sign_joined_output [104, 105] (List.replicate 64 0)).drop (([104, 105] : List Nat).length + Ichi.SIG_ARMOR_TOP.length)).take 44
        = (b64_encode (List.replicate 64 0)).take 44 ∧
    (Ichi.sign_joined_output [104, 105] (List.replicate 64 0)).get? (([104, 105] : List Nat).length + (Ichi.SIG_ARMOR_TOP.length + 44)) = some 10 ∧
    ((Ichi.sign_joined_output [104, 105] (List.replicate 64 0)).drop (([104, 105] : List Nat).length + (Ichi.SIG_ARMOR_TOP.length + 45))).take 44
        = (b64_encode (List.replicate 64 0)).drop 44 ∧
    (Ichi.sign_joined_output [104, 105] (List.replicate 64 0)).drop (([104, 105] : List Nat).length + (Ichi.SIG_ARMOR_TOP.length + 89))
        = Ichi.SIG_ARMOR_END ∧
    (Kurv.sign_output [104, 105] (List.replicate 64 0)).length
        = ([104, 105] : List Nat).length + (Kurv.SIG_START.length + 88 + Kurv.SIG_END.length) ∧
    ((Kurv.sign_output [104, 105] (List.replicate 64 0)).drop (([104, 105] : List Nat).length + Kurv.SIG_START.length)).take 88
        = b64_encode (List.replicate 64 0) :=
  C3_wrap_layout [104, 105] (List.replicate 64 0) (by decide)

/-- C4 counterexample: kurv's unwrap does not require a newline
separator between two 44-character halves.  On the minimum envelope
around the all-zero signature, the byte at the claimed separator
position (start marker length + 44 into the envelope) is the encoded
character 65, not a newline, yet find_signature accepts the buffer. -/
theorem C4_kurv_no_separator_counterexample :
    (Kurv.sign_envelope (List.replicate 64 0)).get? (Kurv.SIG_START.length + 44) ≠ some 10 ∧
    Kurv.find_signature (Kurv.sign_envelope (List.replicate 64 0))
        = some (List.replicate 64 0, 0) := by
  constructor
  · decide
  · decide

/-- C4 amended: ichi-sign's unwrap compares the start marker at the
head of the envelope region, the end marker at the very end, and
requires the byte between the two 44-character halves to be a newline,
and any mismatch rejects the buffer with nothing decoded; kurv's unwrap
compares the end marker at the very end and the start marker at the
head of the envelope region, and any mismatch rejects the buffer, but
it has no separator requirement because its 88 encoded characters are
contiguous. -/
theorem C4_marker_checks (buf : List Nat) :
    (((buf.drop (buf.length - Ichi.TOTAL_SZ)).take Ichi.SIG_ARMOR_TOP.length ≠ Ichi.SIG_ARMOR_TOP
        ∨ ((buf.drop (buf.length - Ichi.TOTAL_SZ)).drop (Ichi.SIG_ARMOR_TOP.length + (88 + 1))).take Ichi.SIG_ARMOR_END.length ≠ Ichi.SIG_ARMOR_END
        ∨ ((buf.drop (buf.length - Ichi.TOTAL_SZ)).drop Ichi.SIG_ARMOR_TOP.length).get? 44 ≠ some 10)
      → Ichi.sig_from_buf buf = none) ∧
    ((buf.drop (buf.length - Kurv.SIG_END.length) ≠ Kurv.SIG_END
        ∨ (buf.drop (buf.length - Kurv.TOTAL)).take Kurv.SIG_START.length ≠ Kurv.SIG_START)
      → Kurv.find_signature buf = none) := by
  constructor
  · intro h
    simp only [Ichi.sig_from_buf]
    split
    · rfl
    · split
      · rfl
      · split
        · rfl
        · split
          · rfl
          · rename_i h1 h2 h3 h4
            rcases h with h | h | h
            · exact absurd (not_not.mp h2) h
            · exact absurd (not_not.mp h3) h
            · exact absurd (not_not.mp h4) h
  · intro h
    simp only [Kurv.find_signature]
    split
    · rfl
    · split
      · rfl
      · split
        · rfl
        · rename_i h1 h2 h3
          rcases h with h | h
          · exact absurd (not_not.mp h2) h
          · exact absurd (not_not.mp h3) h

/-- C4 witness: the all-zero buffer of the minimum ichi length carries
neither banner, so both unwrapping functions reject it. -/
theorem C4_marker_checks_witness :
    Ichi.sig_from_buf (List.replicate 149 0) = none ∧
    Kurv.find_signature (List.replicate 149 0) = none := by
  have h := C4_marker_checks (List.replicate 149 0)
  exact ⟨h.1 (Or.inl (by decide)), h.2 (Or.inl (by decide))⟩

theorem ichi_candidate_eq_endswith (name : List Nat) :
    Ichi.keyring_candidate name = Kurv.endswith name (strBytes (".sign.pub")) := by
  have h9 : (strBytes (".sign.pub")).length = 9 := by decide
  simp only [Ichi.keyring_candidate, Kurv.endswith, h9]

theorem kurv_candidate_eq_endswith (name : List Nat) :
    Kurv.keyring_candidate name = Kurv.endswith name (strBytes (".pub")) := by
  by_cases h1 : name = strBytes (".")
  · subst h1
    decide
  · by_cases h2 : name = strBytes ("..")
    · subst h2
      decide
    · have e1 : (name == strBytes (".")) = false := beq_eq_false_iff_ne.mpr h1
      have e2 : (name == strBytes ("..")) = false := beq_eq_false_iff_ne.mpr h2
      simp only [Kurv.keyring_candidate, e1, e2, Bool.not_false, Bool.true_and]

/-- C1: both keyring scans compute exactly the specification's
first-match search: restricted to the entries whose names end in the
candidate-key suffix (".sign.pub" for ichi-sign, ".pub" for kurv), the
first entry that loads as a public key and passes the external
cryptographic verification is reported by name, entries that fail to
open, read, or decode contribute nothing and never abort the scan, and
an exhausted scan yields `none` (NotFound). -/
theorem C1_keyring_first_match (si so : Bool) (check : List Nat → Bool) (msg : List Nat)
    (entries : List DirEntry) :
    (Ichi.verify_keyring_loop so check msg entries).1
        = firstMatchSpec (fun n => Kurv.endswith n (strBytes (".sign.pub")))
            Ichi.load_candidate check entries ∧
    (Kurv.check_keyring_loop si so check msg entries).1
        = firstMatchSpec (fun n => Kurv.endswith n (strBytes (".pub")))
            (fun f => f.bind (fun s => (Kurv.find_key_in_file s).1)) check entries := by
  induction entries with
  | nil =>
      constructor
      · rfl
      · rfl
  | cons e rest ih =>
      obtain ⟨ih1, ih2⟩ := ih
      constructor
      · rw [firstMatchSpec, List.filter_cons]
        rw [← ichi_candidate_eq_endswith]
        by_cases hc : Ichi.keyring_candidate e.name
        · simp only [Ichi.verify_keyring_loop, hc, if_true]
          cases hl : Ichi.load_candidate e.file with
          | none =>
              simp only [List.findSome?_cons, hl]
              exact ih1
          | some pk =>
              by_cases hk : check pk
              · simp only [List.findSome?_cons, hl, hk, if_true]
              · simp only [List.findSome?_cons, hl, hk, if_false]
                exact ih1
        · simp only [Ichi.verify_keyring_loop, hc, if_false]
          exact ih1
      · rw [firstMatchSpec, List.filter_cons]
        rw [← kurv_candidate_eq_endswith]
        by_cases hc : Kurv.keyring_candidate e.name
        · simp only [Kurv.check_keyring_loop, hc, if_true]
          cases hf : e.file with
          | none =>
              simp only [List.findSome?_cons, hf, Option.bind]
              exact ih2
          | some s =>
              cases hl : (Kurv.find_key_in_file s).1 with
              | none =>
                  simp only [List.findSome?_cons, hf, Option.some_bind, hl]
                  exact ih2
              | some pk =>
                  by_cases hk : check pk
                  · simp only [List.findSome?_cons, hf, Option.some_bind, hl, hk, if_true]
                  · simp only [List.findSome?_cons, hf, Option.some_bind, hl, hk, if_false]
                    exact ih2
        · simp only [Kurv.check_keyring_loop, hc, if_false]
          exact ih2

/-- C6: evaluation of the keyring entry points on failing
configurations.  With $ICHI_SIGN_KEYRING set but the directory
unopenable, ichi-sign's verify_keyring feeds the NULL result of opendir
straight into dirfd — undefined behaviour, not the error report the
claim requires; with the variable unset it reports a configuration
error, and kurv's check_keyring reports errors without crashing in both
situations. -/
theorem C6_keyring_config_failures :
    Ichi.verify_keyring (some (strBytes ("keyring"))) none false (fun _ => true) []
        = (Ichi.KeyringOutcome.undefinedBehavior, []) ∧
    Ichi.verify_keyring none none false (fun _ => true) []
        = (Ichi.KeyringOutcome.configError, []) ∧
    (∀ input dir si so check,
      Kurv.check_keyring none dir si so check input = (Kurv.CheckOutcome.configError, [])) ∧
    Kurv.check_keyring (some (strBytes ("keyring"))) none false false (fun _ _ _ => true)
        (Kurv.sign_envelope (List.replicate 64 0))
        = (Kurv.CheckOutcome.openDirError, []) := by
  refine ⟨rfl, rfl, fun input dir si so check => rfl, by decide⟩

/-- C7: the wipe discipline of the key loaders.  ichi-sign's
read_key_from_file wipes the intermediate encoded-key buffer on every
exit path (its error label runs on success and failure alike), but
kurv's find_key_in_file calls crypto_wipe only in its failure branch:
evaluated on a file holding a valid encoded 32-byte key, the load
succeeds and the function returns with the encoded-key buffer
un-wiped. -/
theorem C7_wipe_on_exit :
    (∀ file, (Ichi.read_key_from_file file).2 = true) ∧
    (Kurv.find_key_in_file (b64_encode (List.replicate 32 0))).1
        = some (List.replicate 32 0) ∧
    (Kurv.find_key_in_file (b64_encode (List.replicate 32 0))).2 = false := by
  refine ⟨?_, by decide, by decide⟩
  intro file
  cases file with
  | none => rfl
  | some stream =>
      simp only [Ichi.read_key_from_file]
      split
      · rfl
      · split
        · rfl
        · rfl

theorem ichi_verify_keyring_loop_none (so : Bool) (check : List Nat → Bool) (msg : List Nat) :
    ∀ entries, (Ichi.verify_keyring_loop so check msg entries).1 = none →
      (Ichi.verify_keyring_loop so check msg entries).2 = []
  | [] => fun _ => rfl
  | e :: rest => by
      simp only [Ichi.verify_keyring_loop]
      split
      · split
        · exact ichi_verify_keyring_loop_none so check msg rest
        · split
          · intro h
            exact absurd h (by simp)
          · exact ichi_verify_keyring_loop_none so check msg rest
      · exact ichi_verify_keyring_loop_none so check msg rest

theorem kurv_check_keyring_loop_none (si so : Bool) (check : List Nat → Bool) (msg : List Nat) :
    ∀ entries, (Kurv.check_keyring_loop si so check msg entries).1 = none →
      (Kurv.check_keyring_loop si so check msg entries).2 = []
  | [] => fun _ => rfl
  | e :: rest => by
      simp only [Kurv.check_keyring_loop]
      split
      · split
        · exact kurv_check_keyring_loop_none si so check msg rest
        · split
          · exact kurv_check_keyring_loop_none si so check msg rest
          · split
            · intro h
              exact absurd h (by simp)
            · exact kurv_check_keyring_loop_none si so check msg rest
      · exact kurv_check_keyring_loop_none si so check msg rest

/-- C10: in every verification entry point, the output stream receives
bytes only after verification has succeeded: whenever the outcome is a
malformed envelope, a failed load, an invalid signature, a
configuration error, or an exhausted keyring scan, the bytes written to
the output are exactly none. -/
theorem C10_no_output_without_success :
    (∀ so check input, (Ichi.verify_single so check input).1 = false →
      (Ichi.verify_single so check input).2 = []) ∧
    (∀ env dir so check msg,
      (∀ id, (Ichi.verify_keyring env dir so check msg).1 ≠ Ichi.KeyringOutcome.found id) →
      (Ichi.verify_keyring env dir so check msg).2 = []) ∧
    (∀ si so cf pfn pkfile input, (Kurv.check si so cf pfn pkfile input).1 = false →
      (Kurv.check si so cf pfn pkfile input).2 = []) ∧
    (∀ env dir si so cf input,
      (∀ id, (Kurv.check_keyring env dir si so cf input).1 ≠ Kurv.CheckOutcome.found id) →
      (Kurv.check_keyring env dir si so cf input).2 = []) := by
  refine ⟨?_, ?_, ?_, ?_⟩
  · intro so check input
    simp only [Ichi.verify_single]
    split
    · intro _
      rfl
    · split
      · intro h
        exact absurd h (by simp)
      · intro _
        rfl
  · intro env dir so check msg h
    cases env with
    | none => rfl
    | some d =>
      cases dir with
      | none => rfl
      | some entries =>
        simp only [Ichi.verify_keyring] at h ⊢
        rcases hl : Ichi.verify_keyring_loop so check msg entries with ⟨res, out⟩
        cases res with
        | none =>
            simp only [hl]
            have h2 := ichi_verify_keyring_loop_none so check msg entries (by rw [hl])
            rw [hl] at h2
            exact h2
        | some id =>
            simp only [hl] at h
            exact absurd rfl (h id)
  · intro si so cf pfn pkfile input
    simp only [Kurv.check]
    split
    · intro _
      rfl
    · split
      · intro _
        rfl
      · split
        · intro h
          exact absurd h (by simp)
        · intro _
          rfl
  · intro env dir si so cf input h
    cases env with
    | none => rfl
    | some d =>
      simp only [Kurv.check_keyring] at h ⊢
      by_cases hd : d.length = 0
      · simp only [if_pos hd]
      · rcases hsig : Kurv.find_signature input with _ | ⟨sig, n⟩
        · simp only [if_neg hd, hsig]
        · cases dir with
          | none => simp only [if_neg hd, hsig]
          | some entries =>
            rcases hl : Kurv.check_keyring_loop si so (fun pk => cf sig pk (input.take n))
                (input.take n) entries with ⟨res, out⟩
            cases res with
            | none =>
                simp only [if_neg hd, hsig, hl]
                have h2 := kurv_check_keyring_loop_none si so
                    (fun pk => cf sig pk (input.take n)) (input.take n) entries (by rw [hl])
                rw [hl] at h2
                exact h2
            | some id =>
                simp only [if_neg hd, hsig, hl] at h
                exact absurd rfl (h id)

/-- C10 witness: concrete failing verifications with streaming
requested write nothing — an empty input for the single-key paths and
an unset keyring variable for the keyring paths. -/
theorem C10_no_output_without_success_witness :
    (Ichi.verify_single true (fun _ _ => true) []).2 = [] ∧
    (Ichi.verify_keyring none none true (fun _ => true) [104]).2 = [] ∧
    (Kurv.check true true (fun _ _ _ => true) [112] [] []).2 = [] ∧
    (Kurv.check_keyring none none true true (fun _ _ _ => true) [104]).2 = [] := by
  refine ⟨C10_no_output_without_success.1 true (fun _ _ => true) [] (by decide),
    C10_no_output_without_success.2.1 none none true (fun _ => true) [104] ?_,
    C10_no_output_without_success.2.2.1 true true (fun _ _ _ => true) [112] [] [] (by decide),
    C10_no_output_without_success.2.2.2 none none true true (fun _ _ _ => true) [104] ?_⟩
  · intro id h
    exact Ichi.KeyringOutcome.noConfusion h
  · intro id h
    exact Kurv.CheckOutcome.noConfusion h
